import Mathlib

/-!
# Verification of `check_diff.py` (Tuntii/RustAPI)

The program is a single recursive structural comparator over JSON-decoded
values, plus two hard-coded JSON documents.  We embed the Python value
domain (`Value`), Python's `==` on that domain (`pyEq`), and the `compare`
function from the source, which here returns the ordered list of emitted
difference records instead of printing them.
-/

set_option autoImplicit false

namespace PyDiff

/-- The domain of JSON-decoded Python values: dicts with string keys
(as insertion-ordered association lists), lists, and scalars.
Python floats are modelled by their exact rational value (every finite
IEEE double is a rational, and Python's `==` on finite floats is exact
rational comparison). -/
inductive Value where
  | str : String → Value
  | int : Int → Value
  | float : Rat → Value
  | bool : Bool → Value
  | null : Value
  | arr : List Value → Value
  | obj : List (String × Value) → Value

/-- One emitted diagnostic line of `compare`:
`Difference at <path>: <l> != <r>`, `Missing key in right: <path>`,
`Missing key in left: <path>`, or `Length mismatch at <path>`. -/
inductive Record where
  | diff : String → Value → Value → Record
  | missingRight : String → Record
  | missingLeft : String → Record
  | lenMismatch : String → Record

/-- The path string of a record (the `<path>` part of the printed line). -/
def Record.path : Record → String
  | .diff p _ _ => p
  | .missingRight p => p
  | .missingLeft p => p
  | .lenMismatch p => p

/-- Is this record a value-mismatch (`Difference at ...`) record? -/
def Record.isDiff : Record → Bool
  | .diff _ _ _ => true
  | _ => false

/-- First value bound to key `k` in a Python dict modelled as an
association list (`d[k]`). -/
def findVal (k : String) : List (String × Value) → Option Value
  | [] => none
  | (k2, v) :: rest => if k2 = k then some v else findVal k rest

/-- Python's `k in d` membership test on dict keys. -/
def containsKey (k : String) : List (String × Value) → Bool
  | [] => false
  | (k2, _) :: rest => k2 = k || containsKey k rest

/-- The numeric value of a Python scalar, when it is numeric.  Python's
`bool` is a subclass of `int` with `True == 1` and `False == 0`, and
`int` and `float` compare by exact numeric value. -/
def toNum : Value → Option Rat
  | .int n => some (n : Rat)
  | .float q => some q
  | .bool b => some (if b then 1 else 0)
  | _ => none

/-- Every key of `ro` occurs as a key of `lo`. -/
def keysSubset (ro lo : List (String × Value)) : Bool :=
  ro.all fun kv => containsKey kv.1 lo

mutual

/-- Python's `==` (deep structural equality with numeric coercion),
restricted to the JSON-decoded value domain.  Two dicts are equal when
every item of the left occurs (by lookup) equally in the right and every
right key occurs in the left; two lists are equal pointwise at equal
length; numeric scalars compare by numeric value. -/
def pyEq (l r : Value) : Bool :=
  match toNum l, toNum r with
  | some a, some b => a == b
  | _, _ =>
    match l, r with
    | .str s, .str t => s == t
    | .null, .null => true
    | .arr la, .arr ra => pyEqList la ra
    | .obj lo, .obj ro => pyEqObjFwd lo ro && keysSubset ro lo
    | _, _ => false

/-- Pointwise Python equality of two lists (false when lengths differ). -/
def pyEqList (la ra : List Value) : Bool :=
  match la, ra with
  | [], [] => true
  | x :: xs, y :: ys => pyEq x y && pyEqList xs ys
  | _, _ => false

/-- Every item `(k, v)` of `lo` has `ro[k]` defined and `== v`. -/
def pyEqObjFwd (lo ro : List (String × Value)) : Bool :=
  match lo with
  | [] => true
  | (k, v) :: rest =>
    (match findVal k ro with
     | some w => pyEq v w
     | none => false) && pyEqObjFwd rest ro

end

mutual

/-- The `compare` function of `check_diff.py`, with the printed lines
returned as an ordered list of records:

    def compare(path, l, r):
        if l != r:
            print(f"Difference at {path}: {l} != {r}")
        if isinstance(l, dict) and isinstance(r, dict):
            for k in l:
                if k in r:
                    compare(f"{path}.{k}", l[k], r[k])
                else:
                    print(f"Missing key in right: {path}.{k}")
            for k in r:
                if k not in l:
                    print(f"Missing key in left: {path}.{k}")
        elif isinstance(l, list) and isinstance(r, list):
            if len(l) != len(r):
                print(f"Length mismatch at {path}")
            for i in range(min(len(l), len(r))):
                compare(f"{path}[{i}]", l[i], r[i])
-/
def compare (path : String) (l r : Value) : List Record :=
  (if pyEq l r then [] else [Record.diff path l r]) ++
  (match l, r with
   | .obj lo, .obj ro =>
     compareKeys path lo ro ++
     (ro.filterMap fun kv =>
       if containsKey kv.1 lo then none
       else some (Record.missingLeft (path ++ "." ++ kv.1)))
   | .arr la, .arr ra =>
     (if la.length = ra.length then [] else [Record.lenMismatch path]) ++
     compareIdx path 0 la ra
   | _, _ => [])

/-- The first loop of the dict branch: for each key of the left dict in
insertion order, recurse when the right dict has the key, else emit a
"Missing key in right" record. -/
def compareKeys (path : String) (lo ro : List (String × Value)) : List Record :=
  match lo with
  | [] => []
  | (k, v) :: rest =>
    (match findVal k ro with
     | some w => compare (path ++ "." ++ k) v w
     | none => [Record.missingRight (path ++ "." ++ k)]) ++
    compareKeys path rest ro

/-- The loop of the list branch: pairwise recursion over the common
prefix, at paths `path[i]`. -/
def compareIdx (path : String) (i : Nat) (la ra : List Value) : List Record :=
  match la, ra with
  | x :: xs, y :: ys =>
    compare (path ++ "[" ++ toString i ++ "]") x y ++ compareIdx path (i + 1) xs ys
  | _, _ => []

end

mutual

/-- A `Value` actually representable as a JSON-decoded Python value:
every `obj` node has pairwise distinct keys (a Python dict cannot hold
the same key twice). -/
def wf : Value → Bool
  | .arr la => wfList la
  | .obj lo => decide ((lo.map Prod.fst).Nodup) && wfPairs lo
  | _ => true

/-- All elements of a list are well-formed. -/
def wfList : List Value → Bool
  | [] => true
  | v :: vs => wf v && wfList vs

/-- All values of an association list are well-formed. -/
def wfPairs : List (String × Value) → Bool
  | [] => true
  | kv :: rest => wf kv.2 && wfPairs rest

end

mutual

/-- The depth of a `Value` tree, counting every node (a scalar is a tree
of depth 1); the recursion depth of `compare path l r` is bounded by
`depth l`. -/
def depth : Value → Nat
  | .arr la => 1 + depthList la
  | .obj lo => 1 + depthPairs lo
  | _ => 1

/-- Maximum depth of the elements of a list. -/
def depthList : List Value → Nat
  | [] => 0
  | v :: vs => max (depth v) (depthList vs)

/-- Maximum depth of the values of an association list. -/
def depthPairs : List (String × Value) → Nat
  | [] => 0
  | kv :: rest => max (depth kv.2) (depthPairs rest)

end

mutual

/-- A fuel-bounded variant of `compare`: one unit of fuel is consumed at
each level of recursion, and `none` is returned when the fuel runs out.
`compareFuel fuel p l r = some (compare p l r)` whenever
`depth l ≤ fuel`, which is the formal content of the termination /
bounded-recursion-depth property. -/
def compareFuel : Nat → String → Value → Value → Option (List Record)
  | 0, _, _, _ => none
  | fuel + 1, path, l, r => do
    let tail ←
      match l, r with
      | .obj lo, .obj ro => do
        let recs ← compareKeysFuel fuel path lo ro
        pure (recs ++
          (ro.filterMap fun kv =>
            if containsKey kv.1 lo then none
            else some (Record.missingLeft (path ++ "." ++ kv.1))))
      | .arr la, .arr ra => do
        let recs ← compareIdxFuel fuel path 0 la ra
        pure ((if la.length = ra.length then [] else [Record.lenMismatch path]) ++ recs)
      | _, _ => pure ([] : List Record)
    pure ((if pyEq l r then [] else [Record.diff path l r]) ++ tail)
termination_by fuel => (fuel, 0)

/-- Fuel-bounded variant of `compareKeys` (the fuel is spent by the
nested `compareFuel` calls, not by walking the key list). -/
def compareKeysFuel (fuel : Nat) (path : String) :
    List (String × Value) → List (String × Value) → Option (List Record)
  | [], _ => some []
  | (k, v) :: rest, ro => do
    let head ←
      match findVal k ro with
      | some w => compareFuel fuel (path ++ "." ++ k) v w
      | none => pure [Record.missingRight (path ++ "." ++ k)]
    let tail ← compareKeysFuel fuel path rest ro
    pure (head ++ tail)
termination_by lo _ => (fuel, 1 + sizeOf lo)

/-- Fuel-bounded variant of `compareIdx`. -/
def compareIdxFuel (fuel : Nat) (path : String) (i : Nat) :
    List Value → List Value → Option (List Record)
  | x :: xs, y :: ys => do
    let head ← compareFuel fuel (path ++ "[" ++ toString i ++ "]") x y
    let tail ← compareIdxFuel fuel path (i + 1) xs ys
    pure (head ++ tail)
  | _, _ => pure []
termination_by la _ => (fuel, 1 + sizeOf la)

end

/-- Replace the value bound to key `k` (first occurrence) by `w`,
leaving the list unchanged when the key is absent: the write-back of a
dict entry in a state-passing reading of the Python code. -/
def updateVal (k : String) (w : Value) : List (String × Value) → List (String × Value)
  | [] => []
  | (k2, v) :: rest => if k2 = k then (k2, w) :: rest else (k2, v) :: updateVal k w rest

mutual

/-- A state-passing reading of `compare`: both inputs are threaded
through the recursion and reassembled from the recursive results, so
that any mutation the comparator performed would show up as a changed
return value.  `compareMut_frame` proves both inputs come back
unchanged (the comparator only reads them). -/
def compareMut (path : String) (l r : Value) : List Record × Value × Value :=
  let head := if pyEq l r then [] else [Record.diff path l r]
  match l, r with
  | .obj lo, .obj ro =>
    let step := compareKeysMut path lo ro
    (head ++ step.1 ++
      (step.2.2.filterMap fun kv =>
        if containsKey kv.1 step.2.1 then none
        else some (Record.missingLeft (path ++ "." ++ kv.1))),
     .obj step.2.1, .obj step.2.2)
  | .arr la, .arr ra =>
    let step := compareIdxMut path 0 la ra
    (head ++
      (if step.2.1.length = step.2.2.length then [] else [Record.lenMismatch path]) ++
      step.1,
     .arr step.2.1, .arr step.2.2)
  | _, _ => (head, l, r)

/-- State-passing variant of `compareKeys`: returns the emitted records
together with the left association list rebuilt from the recursive
results and the right association list with each visited entry written
back. -/
def compareKeysMut (path : String) :
    List (String × Value) → List (String × Value) →
      List Record × List (String × Value) × List (String × Value)
  | [], ro => ([], [], ro)
  | (k, v) :: rest, ro =>
    match findVal k ro with
    | some w =>
      let c := compareMut (path ++ "." ++ k) v w
      let t := compareKeysMut path rest (updateVal k c.2.2 ro)
      (c.1 ++ t.1, (k, c.2.1) :: t.2.1, t.2.2)
    | none =>
      let t := compareKeysMut path rest ro
      (Record.missingRight (path ++ "." ++ k) :: t.1, (k, v) :: t.2.1, t.2.2)

/-- State-passing variant of `compareIdx`. -/
def compareIdxMut (path : String) (i : Nat) :
    List Value → List Value → List Record × List Value × List Value
  | x :: xs, y :: ys =>
    let c := compareMut (path ++ "[" ++ toString i ++ "]") x y
    let t := compareIdxMut path (i + 1) xs ys
    (c.1 ++ t.1, c.2.1 :: t.2.1, c.2.2 :: t.2.2)
  | la, ra => ([], la, ra)

end

/-- The value-mismatch record of one node: the `if l != r` line of the
source. -/
def selfDiff (path : String) (l r : Value) : List Record :=
  if pyEq l r then [] else [Record.diff path l r]

/-- The records contributed by one key of the left dict: the body of
the first `for` loop of the dict branch. -/
def keyBlock (path : String) (ro : List (String × Value)) (kv : String × Value) :
    List Record :=
  match findVal kv.1 ro with
  | some w => compare (path ++ "." ++ kv.1) kv.2 w
  | none => [Record.missingRight (path ++ "." ++ kv.1)]

/-- The "Missing key in left" records of the second `for` loop of the
dict branch, in the right dict's insertion order. -/
def missingLeftRecs (path : String) (lo ro : List (String × Value)) : List Record :=
  ro.filterMap fun kv =>
    if containsKey kv.1 lo then none
    else some (Record.missingLeft (path ++ "." ++ kv.1))

/-- The records contributed by one index of the common prefix of two
lists: the body of the `for i in range(...)` loop. -/
def idxBlock (path : String) (iv : Nat × Value × Value) : List Record :=
  compare (path ++ "[" ++ toString iv.1 ++ "]") iv.2.1 iv.2.2

/-- The left sample document: the decoding of the hard-coded `left_str`
(with the one missing trailing brace supplied, since the literal in the
source is truncated and `json.loads` rejects it as written), dict keys
in document (insertion) order. -/
def leftDoc : Value :=
  .obj [
    ("components", .obj [
      ("schemas", .obj [
        ("ErrorBodySchema", .obj [
          ("properties", .obj [
            ("error_type", .obj [
              ("type", .str "string")]),
            ("fields", .obj [
              ("items", .obj [
                ("", .str "#/components/schemas/FieldErrorSchema")]),
              ("type", .arr [
                .str "array",
                .str "null"])]),
            ("message", .obj [
              ("type", .str "string")])]),
          ("required", .arr [
            .str "error_type",
            .str "message"]),
          ("type", .str "object")]),
        ("ErrorSchema", .obj [
          ("properties", .obj [
            ("error", .obj [
              ("", .str "#/components/schemas/ErrorBodySchema")]),
            ("request_id", .obj [
              ("type", .arr [
                .str "string",
                .str "null"])])]),
          ("required", .arr [
            .str "error"]),
          ("type", .str "object")]),
        ("FieldErrorSchema", .obj [
          ("properties", .obj [
            ("code", .obj [
              ("type", .str "string")]),
            ("field", .obj [
              ("type", .str "string")]),
            ("message", .obj [
              ("type", .str "string")])]),
          ("required", .arr [
            .str "field",
            .str "code",
            .str "message"]),
          ("type", .str "object")]),
        ("SnapshotUser", .obj [
          ("properties", .obj [
            ("id", .obj [
              ("format", .str "int64"),
              ("type", .str "integer")]),
            ("username", .obj [
              ("type", .str "string")])]),
          ("required", .arr [
            .str "id",
            .str "username"]),
          ("type", .str "object")]),
        ("ValidationErrorBodySchema", .obj [
          ("properties", .obj [
            ("error_type", .obj [
              ("type", .str "string")]),
            ("fields", .obj [
              ("items", .obj [
                ("", .str "#/components/schemas/FieldErrorSchema")]),
              ("type", .str "array")]),
            ("message", .obj [
              ("type", .str "string")])]),
          ("required", .arr [
            .str "error_type",
            .str "message",
            .str "fields"]),
          ("type", .str "object")]),
        ("ValidationErrorSchema", .obj [
          ("properties", .obj [
            ("error", .obj [
              ("", .str "#/components/schemas/ValidationErrorBodySchema")])]),
          ("required", .arr [
            .str "error"]),
          ("type", .str "object")])]),
      ("info", .obj [
        ("description", .str "Test Description"),
        ("title", .str "Snapshot API"),
        ("version", .str "1.0.0")]),
      ("jsonSchemaDialect", .str "https://json-schema.org/draft/2020-12/schema"),
      ("openapi", .str "3.1.0"),
      ("paths", .obj [
        ("/users", .obj [
          ("get", .obj [
            ("responses", .obj [
              ("200", .obj [
                ("content", .obj [
                  ("text/plain", .obj [
                    ("schema", .obj [
                      ("type", .str "string")])])]),
                ("description", .str "Successful response")])])])]),
        ("/users/{id}", .obj [
          ("get", .obj [
            ("parameters", .arr [
              .obj [
                ("in", .str "path"),
                ("name", .str "id"),
                ("required", .bool true),
                ("schema", .obj [
                  ("type", .str "string")])]]),
            ("responses", .obj [
              ("200", .obj [
                ("content", .obj [
                  ("text/plain", .obj [
                    ("schema", .obj [
                      ("type", .str "string")])])]),
                ("description", .str "Successful response")])])])])])])]

/-- The right sample document: the decoding of the hard-coded `right_str`
(with the one missing trailing brace supplied, since the literal in the
source is truncated and `json.loads` rejects it as written), dict keys
in document (insertion) order. -/
def rightDoc : Value :=
  .obj [
    ("components", .obj [
      ("schemas", .obj [
        ("ErrorBodySchema", .obj [
          ("properties", .obj [
            ("error_type", .obj [
              ("type", .str "string")]),
            ("fields", .obj [
              ("items", .obj [
                ("", .str "#/components/schemas/FieldErrorSchema")]),
              ("type", .arr [
                .str "array",
                .str "null"])]),
            ("message", .obj [
              ("type", .str "string")])]),
          ("required", .arr [
            .str "error_type",
            .str "message"]),
          ("type", .str "object")]),
        ("ErrorSchema", .obj [
          ("properties", .obj [
            ("error", .obj [
              ("", .str "#/components/schemas/ErrorBodySchema")]),
            ("request_id", .obj [
              ("type", .arr [
                .str "string",
                .str "null"])])]),
          ("required", .arr [
            .str "error"]),
          ("type", .str "object")]),
        ("FieldErrorSchema", .obj [
          ("properties", .obj [
            ("code", .obj [
              ("type", .str "string")]),
            ("field", .obj [
              ("type", .str "string")]),
            ("message", .obj [
              ("type", .str "string")])]),
          ("required", .arr [
            .str "field",
            .str "code",
            .str "message"]),
          ("type", .str "object")]),
        ("SnapshotUser", .obj [
          ("properties", .obj [
            ("id", .obj [
              ("format", .str "int64"),
              ("type", .str "integer")]),
            ("username", .obj [
              ("type", .str "string")])]),
          ("required", .arr [
            .str "id",
            .str "username"]),
          ("type", .str "object")]),
        ("ValidationErrorBodySchema", .obj [
          ("properties", .obj [
            ("error_type", .obj [
              ("type", .str "string")]),
            ("fields", .obj [
              ("items", .obj [
                ("", .str "#/components/schemas/FieldErrorSchema")]),
              ("type", .str "string")]),
            ("message", .obj [
              ("type", .str "string")])]),
          ("required", .arr [
            .str "error_type",
            .str "message",
            .str "fields"]),
          ("type", .str "object")]),
        ("ValidationErrorSchema", .obj [
          ("properties", .obj [
            ("error", .obj [
              ("", .str "#/components/schemas/ValidationErrorBodySchema")])]),
          ("required", .arr [
            .str "error"]),
          ("type", .str "object")])]),
      ("info", .obj [
        ("description", .str "Test Description"),
        ("title", .str "Snapshot API"),
        ("version", .str "1.0.0")]),
      ("jsonSchemaDialect", .str "https://json-schema.org/draft/2020-12/schema"),
      ("openapi", .str "3.1.0"),
      ("paths", .obj [
        ("/users", .obj [
          ("get", .obj [
            ("responses", .obj [
              ("200", .obj [
                ("content", .obj [
                  ("text/plain", .obj [
                    ("schema", .obj [
                      ("type", .str "string")])])]),
                ("description", .str "Successful response")])])])]),
        ("/users/{id}", .obj [
          ("get", .obj [
            ("parameters", .arr [
              .obj [
                ("in", .str "path"),
                ("name", .str "id"),
                ("required", .bool true),
                ("schema", .obj [
                  ("type", .str "string")])]]),
            ("responses", .obj [
              ("200", .obj [
                ("content", .obj [
                  ("text/plain", .obj [
                    ("schema", .obj [
                      ("type", .str "string")])])]),
                ("description", .str "Successful response")])])])])])])]
/-- Structural induction principle for `Value` with list-membership
induction hypotheses for the two container constructors. -/
theorem Value.myInduction (P : Value → Prop)
    (hstr : ∀ s, P (.str s)) (hint : ∀ n, P (.int n))
    (hfloat : ∀ q, P (.float q)) (hbool : ∀ b, P (.bool b))
    (hnull : P .null)
    (harr : ∀ la, (∀ v ∈ la, P v) → P (.arr la))
    (hobj : ∀ lo, (∀ kv ∈ lo, P kv.2) → P (.obj lo)) :
    ∀ v, P v
  | .str s => hstr s
  | .int n => hint n
  | .float q => hfloat q
  | .bool b => hbool b
  | .null => hnull
  | .arr la => harr la (fun v hv =>
      Value.myInduction P hstr hint hfloat hbool hnull harr hobj v)
  | .obj lo => hobj lo (fun kv hkv =>
      Value.myInduction P hstr hint hfloat hbool hnull harr hobj kv.2)
termination_by v => sizeOf v
decreasing_by
  · have := List.sizeOf_lt_of_mem hv
    simp only [Value.arr.sizeOf_spec]
    omega
  · have h1 := List.sizeOf_lt_of_mem hkv
    have h2 : sizeOf kv.2 < sizeOf kv := by
      obtain ⟨k, v2⟩ := kv
      simp only [Prod.mk.sizeOf_spec]
      omega
    simp only [Value.obj.sizeOf_spec]
    omega

theorem containsKey_of_mem {lo : List (String × Value)} {kv : String × Value}
    (h : kv ∈ lo) : containsKey kv.1 lo = true := by
  induction lo with
  | nil => cases h
  | cons hd tl ih =>
    obtain ⟨k2, v2⟩ := hd
    rcases List.mem_cons.mp h with h1 | h1
    · subst h1
      simp [containsKey]
    · simp [containsKey, ih h1]

theorem keysSubset_refl (lo : List (String × Value)) : keysSubset lo lo = true := by
  simp only [keysSubset, List.all_eq_true]
  intro kv hkv
  exact containsKey_of_mem hkv

theorem findVal_of_nodup {lo : List (String × Value)} {kv : String × Value}
    (hnd : (lo.map Prod.fst).Nodup) (h : kv ∈ lo) : findVal kv.1 lo = some kv.2 := by
  induction lo with
  | nil => cases h
  | cons hd tl ih =>
    obtain ⟨k2, v2⟩ := hd
    simp only [List.map_cons, List.nodup_cons] at hnd
    rcases List.mem_cons.mp h with h1 | h1
    · subst h1
      simp [findVal]
    · have hne : k2 ≠ kv.1 := by
        intro he
        exact hnd.1 (he ▸ (List.mem_map.mpr ⟨kv, h1, rfl⟩))
      simp [findVal, hne, ih hnd.2 h1]

theorem pyEqObjFwd_of {lo ro : List (String × Value)}
    (h : ∀ kv ∈ lo, findVal kv.1 ro = some kv.2 ∧ pyEq kv.2 kv.2 = true) :
    pyEqObjFwd lo ro = true := by
  induction lo with
  | nil => rfl
  | cons hd tl ih =>
    obtain ⟨k2, v2⟩ := hd
    obtain ⟨hf, he⟩ := h (k2, v2) (List.mem_cons_self _ _)
    simp only [pyEqObjFwd, hf, he, Bool.true_and]
    exact ih fun kv hkv => h kv (List.mem_cons_of_mem _ hkv)

theorem pyEqList_refl_of {la : List Value}
    (h : ∀ v ∈ la, pyEq v v = true) : pyEqList la la = true := by
  induction la with
  | nil => rfl
  | cons hd tl ih =>
    simp only [pyEqList, h hd (List.mem_cons_self _ _), Bool.true_and]
    exact ih fun v hv => h v (List.mem_cons_of_mem _ hv)
theorem wfList_mem {la : List Value} {v : Value}
    (h : wfList la = true) (hv : v ∈ la) : wf v = true := by
  induction la with
  | nil => cases hv
  | cons hd tl ih =>
    simp only [wfList, Bool.and_eq_true] at h
    rcases List.mem_cons.mp hv with h1 | h1
    · exact h1 ▸ h.1
    · exact ih h.2 h1

theorem wfPairs_mem {lo : List (String × Value)} {kv : String × Value}
    (h : wfPairs lo = true) (hkv : kv ∈ lo) : wf kv.2 = true := by
  induction lo with
  | nil => cases hkv
  | cons hd tl ih =>
    simp only [wfPairs, Bool.and_eq_true] at h
    rcases List.mem_cons.mp hkv with h1 | h1
    · exact h1 ▸ h.1
    · exact ih h.2 h1

/-- Python `==` is reflexive on the JSON-decodable value domain. -/
theorem pyEq_refl : ∀ v : Value, wf v = true → pyEq v v = true := by
  intro v
  induction v using Value.myInduction with
  | hstr s => intro _; simp [pyEq, toNum]
  | hint n => intro _; simp [pyEq, toNum]
  | hfloat q => intro _; simp [pyEq, toNum]
  | hbool b => intro _; simp [pyEq, toNum]
  | hnull => intro _; simp [pyEq, toNum]
  | harr la ih =>
    intro hwf
    have hla : wfList la = true := by simpa [wf] using hwf
    simp only [pyEq, toNum]
    exact pyEqList_refl_of fun v hv => ih v hv (wfList_mem hla hv)
  | hobj lo ih =>
    intro hwf
    simp only [wf, Bool.and_eq_true, decide_eq_true_eq] at hwf
    obtain ⟨hnd, hp⟩ := hwf
    simp only [pyEq, toNum, Bool.and_eq_true]
    refine ⟨pyEqObjFwd_of fun kv hkv =>
      ⟨findVal_of_nodup hnd hkv, ih kv hkv (wfPairs_mem hp hkv)⟩,
      keysSubset_refl lo⟩

theorem pyEqList_length : ∀ {la ra : List Value}, pyEqList la ra = true →
    la.length = ra.length := by
  intro la
  induction la with
  | nil => intro ra h; cases ra with
    | nil => rfl
    | cons y ys => simp [pyEqList] at h
  | cons x xs ih =>
    intro ra h
    cases ra with
    | nil => simp [pyEqList] at h
    | cons y ys =>
      simp only [pyEqList, Bool.and_eq_true] at h
      simp [List.length_cons, ih h.2]

theorem missingLeft_filterMap_nil {p : String} {lo ro : List (String × Value)}
    (h : keysSubset ro lo = true) :
    (ro.filterMap fun kv =>
      if containsKey kv.1 lo then none
      else some (Record.missingLeft (p ++ "." ++ kv.1))) = [] := by
  rw [List.filterMap_eq_nil_iff]
  intro kv hkv
  simp only [keysSubset, List.all_eq_true] at h
  simp [h kv hkv]

theorem compareKeys_nil {p : String} {lo ro : List (String × Value)}
    (ih : ∀ kv ∈ lo, ∀ (p2 : String) (r : Value), pyEq kv.2 r = true → compare p2 kv.2 r = [])
    (h : pyEqObjFwd lo ro = true) : compareKeys p lo ro = [] := by
  induction lo with
  | nil => rfl
  | cons hd tl ihl =>
    obtain ⟨k, v⟩ := hd
    simp only [pyEqObjFwd, Bool.and_eq_true] at h
    obtain ⟨h1, h2⟩ := h
    simp only [compareKeys]
    cases hf : findVal k ro with
    | none => rw [hf] at h1; simp at h1
    | some w =>
      rw [hf] at h1
      simp only [hf]
      rw [ih (k, v) (List.mem_cons_self _ _) _ w h1,
        ihl (fun kv hkv => ih kv (List.mem_cons_of_mem _ hkv)) h2]
      rfl

theorem compareIdx_nil {p : String} {la : List Value} :
    ∀ {i : Nat} {ra : List Value},
    (∀ v ∈ la, ∀ (p2 : String) (r : Value), pyEq v r = true → compare p2 v r = []) →
    pyEqList la ra = true → compareIdx p i la ra = [] := by
  induction la with
  | nil => intro i ra _ _; cases ra <;> rfl
  | cons x xs ihl =>
    intro i ra ih h
    cases ra with
    | nil => simp [pyEqList] at h
    | cons y ys =>
      simp only [pyEqList, Bool.and_eq_true] at h
      simp only [compareIdx]
      rw [ih x (List.mem_cons_self _ _) _ y h.1,
        ihl (fun v hv => ih v (List.mem_cons_of_mem _ hv)) h.2]
      rfl

/-- When Python `==` holds, `compare` emits nothing at all. -/
theorem compare_nil_of_pyEq : ∀ (l : Value) (p : String) (r : Value),
    pyEq l r = true → compare p l r = [] := by
  intro l
  induction l using Value.myInduction with
  | hstr s => intro p r h; cases r <;> simp [compare, h]
  | hint n => intro p r h; cases r <;> simp [compare, h]
  | hfloat q => intro p r h; cases r <;> simp [compare, h]
  | hbool b => intro p r h; cases r <;> simp [compare, h]
  | hnull => intro p r h; cases r <;> simp [compare, h]
  | harr la ih =>
    intro p r h
    cases r with
    | arr ra =>
      have hl : pyEqList la ra = true := by simpa [pyEq, toNum] using h
      simp only [compare, h, if_true, List.nil_append]
      rw [if_pos (pyEqList_length hl), compareIdx_nil ih hl]
      rfl
    | str t => simp [pyEq, toNum] at h
    | int n => simp [pyEq, toNum] at h
    | float q2 => simp [pyEq, toNum] at h
    | bool b2 => simp [pyEq, toNum] at h
    | null => simp [pyEq, toNum] at h
    | obj ro => simp [pyEq, toNum] at h
  | hobj lo ih =>
    intro p r h
    cases r with
    | obj ro =>
      have hh : pyEqObjFwd lo ro = true ∧ keysSubset ro lo = true := by
        simpa [pyEq, toNum, Bool.and_eq_true] using h
      simp only [compare, h, if_true, List.nil_append]
      rw [compareKeys_nil ih hh.1, missingLeft_filterMap_nil hh.2]
      rfl
    | str t => simp [pyEq, toNum] at h
    | int n => simp [pyEq, toNum] at h
    | float q2 => simp [pyEq, toNum] at h
    | bool b2 => simp [pyEq, toNum] at h
    | null => simp [pyEq, toNum] at h
    | arr ra => simp [pyEq, toNum] at h

/-- When Python `==` fails, the very first record `compare` emits is the
value-mismatch record at the node's own path. -/
theorem compare_cons_of_not_pyEq {p : String} {l r : Value} (h : pyEq l r = false) :
    ∃ t, compare p l r = Record.diff p l r :: t := by
  unfold compare
  rw [h]
  simp only [Bool.false_eq_true, if_false, List.singleton_append]
  exact ⟨_, rfl⟩

theorem compareKeys_eq_flatMap (p : String) (ro : List (String × Value)) :
    ∀ lo, compareKeys p lo ro = lo.flatMap (keyBlock p ro) := by
  intro lo
  induction lo with
  | nil => rfl
  | cons hd tl ih =>
    obtain ⟨k, v⟩ := hd
    simp only [compareKeys, List.flatMap_cons, ih, keyBlock]

theorem compareIdx_eq_enumFrom (p : String) :
    ∀ (la ra : List Value) (i : Nat),
      compareIdx p i la ra = ((la.zip ra).enumFrom i).flatMap (idxBlock p) := by
  intro la
  induction la with
  | nil => intro ra i; cases ra <;> rfl
  | cons x xs ih =>
    intro ra i
    cases ra with
    | nil => rfl
    | cons y ys =>
      simp only [compareIdx, List.zip_cons_cons, List.enumFrom_cons,
        List.flatMap_cons, ih, idxBlock]

theorem flatMap_sublist_of_mem {α β : Type} (f : α → List β) {x : α} {l : List α}
    (hx : x ∈ l) : (f x).Sublist (l.flatMap f) := by
  induction l with
  | nil => cases hx
  | cons hd tl ih =>
    rcases List.mem_cons.mp hx with h1 | h1
    · subst h1
      simp only [List.flatMap_cons]
      exact List.sublist_append_left (f x) (tl.flatMap f)
    · simp only [List.flatMap_cons]
      exact (ih h1).trans (List.sublist_append_right (f hd) (tl.flatMap f))

theorem sublist_append_middle {α : Type} {s t : List α} (pre post : List α)
    (h : s.Sublist t) : s.Sublist (pre ++ t ++ post) := by
  have h1 : t.Sublist (t ++ post) := List.sublist_append_left t post
  have h2 : (t ++ post).Sublist (pre ++ (t ++ post)) :=
    List.sublist_append_right pre (t ++ post)
  exact ((h.trans h1).trans h2).trans (by rw [List.append_assoc])

/-- Decomposition of the dict branch of `compare`: the node's own
value-mismatch record first, then the per-key blocks in the left dict's
insertion order, then the "Missing key in left" records. -/
theorem compare_obj_decomp (p : String) (lo ro : List (String × Value)) :
    compare p (.obj lo) (.obj ro) =
      selfDiff p (.obj lo) (.obj ro) ++
        (lo.flatMap (keyBlock p ro) ++ missingLeftRecs p lo ro) := by
  unfold compare
  rw [← compareKeys_eq_flatMap]
  rfl

/-- Decomposition of the list branch of `compare`: the node's own
value-mismatch record first, then the length-mismatch record when the
lengths differ, then the per-index blocks of the common prefix in index
order. -/
theorem compare_arr_decomp (p : String) (la ra : List Value) :
    compare p (.arr la) (.arr ra) =
      selfDiff p (.arr la) (.arr ra) ++
        ((if la.length = ra.length then [] else [Record.lenMismatch p]) ++
          (la.zip ra).enum.flatMap (idxBlock p)) := by
  unfold compare
  rw [show (la.zip ra).enum = (la.zip ra).enumFrom 0 from rfl, ← compareIdx_eq_enumFrom]
  rfl

/-- The scalar / mismatched-container branch of `compare`: only the
equality-check record is possible. -/
theorem compare_other_decomp (p : String) (l r : Value)
    (h : (∀ lo ro, ¬(l = .obj lo ∧ r = .obj ro)) ∧
         (∀ la ra, ¬(l = .arr la ∧ r = .arr ra))) :
    compare p l r = selfDiff p l r := by
  unfold compare
  cases l <;> cases r <;>
    first
      | (rw [List.append_nil]; rfl)
      | (exact absurd ⟨rfl, rfl⟩ (h.1 _ _))
      | (exact absurd ⟨rfl, rfl⟩ (h.2 _ _))

theorem depth_pos : ∀ v : Value, 1 ≤ depth v := by
  intro v
  cases v <;> simp only [depth] <;> omega

theorem depthList_le {la : List Value} {v : Value} (hv : v ∈ la) :
    depth v ≤ depthList la := by
  induction la with
  | nil => cases hv
  | cons hd tl ih =>
    rcases List.mem_cons.mp hv with h1 | h1
    · subst h1; simp only [depthList]; omega
    · have := ih h1; simp only [depthList]; omega

theorem depthPairs_le {lo : List (String × Value)} {kv : String × Value} (hkv : kv ∈ lo) :
    depth kv.2 ≤ depthPairs lo := by
  induction lo with
  | nil => cases hkv
  | cons hd tl ih =>
    rcases List.mem_cons.mp hkv with h1 | h1
    · subst h1; simp only [depthPairs]; omega
    · have := ih h1; simp only [depthPairs]; omega

theorem compareIdxFuel_correct {la : List Value}
    (ih : ∀ v ∈ la, ∀ (fuel : Nat), depth v ≤ fuel → ∀ (p : String) (r : Value),
      compareFuel fuel p v r = some (compare p v r)) :
    ∀ {fuel : Nat}, depthList la ≤ fuel → ∀ (p : String) (i : Nat) (ra : List Value),
      compareIdxFuel fuel p i la ra = some (compareIdx p i la ra) := by
  induction la with
  | nil =>
    intro fuel _ p i ra
    cases ra <;> simp [compareIdxFuel, compareIdx]
  | cons x xs ihl =>
    intro fuel h p i ra
    cases ra with
    | nil => simp [compareIdxFuel, compareIdx]
    | cons y ys =>
      have hx : depth x ≤ fuel := by
        have := depthList_le (List.mem_cons_self x xs); simp only [depthList] at h ⊢; omega
      have hxs : depthList xs ≤ fuel := by simp only [depthList] at h; omega
      have h1 := ih x (List.mem_cons_self x xs) fuel hx (p ++ "[" ++ toString i ++ "]") y
      have h2 := ihl (fun v hv => ih v (List.mem_cons_of_mem x hv)) hxs p (i + 1) ys
      simp only [compareIdxFuel, h1, h2, compareIdx, Option.bind_eq_bind,
        Option.some_bind, Option.pure_def]

theorem compareKeysFuel_correct {lo : List (String × Value)}
    (ih : ∀ kv ∈ lo, ∀ (fuel : Nat), depth kv.2 ≤ fuel → ∀ (p : String) (r : Value),
      compareFuel fuel p kv.2 r = some (compare p kv.2 r)) :
    ∀ {fuel : Nat}, depthPairs lo ≤ fuel → ∀ (p : String) (ro : List (String × Value)),
      compareKeysFuel fuel p lo ro = some (compareKeys p lo ro) := by
  induction lo with
  | nil =>
    intro fuel _ p ro
    simp [compareKeysFuel, compareKeys]
  | cons hd tl ihl =>
    intro fuel h p ro
    obtain ⟨k, v⟩ := hd
    have hv : depth v ≤ fuel := by simp only [depthPairs] at h; omega
    have htl : depthPairs tl ≤ fuel := by simp only [depthPairs] at h; omega
    have h2 := ihl (fun kv hkv => ih kv (List.mem_cons_of_mem (k, v) hkv)) htl p ro
    cases hf : findVal k ro with
    | none =>
      simp only [compareKeysFuel, hf, h2, compareKeys, Option.bind_eq_bind,
        Option.some_bind, Option.pure_def]
    | some w =>
      have h1 := ih (k, v) (List.mem_cons_self (k, v) tl) fuel hv (p ++ "." ++ k) w
      simp only [compareKeysFuel, hf, h1, h2, compareKeys, Option.bind_eq_bind,
        Option.some_bind, Option.pure_def]

/-- Fuel equal to the depth of the left tree is enough: `compareFuel`
returns `some` of the unbounded result, so the recursion depth of
`compare p l r` is bounded by `depth l`. -/
theorem compareFuel_correct : ∀ (l : Value) (fuel : Nat), depth l ≤ fuel →
    ∀ (p : String) (r : Value), compareFuel fuel p l r = some (compare p l r) := by
  intro l
  induction l using Value.myInduction with
  | hstr s =>
    intro fuel h p r
    cases fuel with
    | zero => simp only [depth] at h; omega
    | succ f => cases r <;> simp [compareFuel, compare]
  | hint n =>
    intro fuel h p r
    cases fuel with
    | zero => simp only [depth] at h; omega
    | succ f => cases r <;> simp [compareFuel, compare]
  | hfloat q =>
    intro fuel h p r
    cases fuel with
    | zero => simp only [depth] at h; omega
    | succ f => cases r <;> simp [compareFuel, compare]
  | hbool b =>
    intro fuel h p r
    cases fuel with
    | zero => simp only [depth] at h; omega
    | succ f => cases r <;> simp [compareFuel, compare]
  | hnull =>
    intro fuel h p r
    cases fuel with
    | zero => simp only [depth] at h; omega
    | succ f => cases r <;> simp [compareFuel, compare]
  | harr la ih =>
    intro fuel h p r
    cases fuel with
    | zero => simp only [depth] at h; omega
    | succ f =>
      have hla : depthList la ≤ f := by simp only [depth] at h; omega
      cases r with
      | arr ra =>
        have hidx := compareIdxFuel_correct ih hla p 0 ra
        simp only [compareFuel, hidx, compare, Option.bind_eq_bind, Option.some_bind,
          Option.pure_def]
      | str t => simp [compareFuel, compare]
      | int n => simp [compareFuel, compare]
      | float q2 => simp [compareFuel, compare]
      | bool b2 => simp [compareFuel, compare]
      | null => simp [compareFuel, compare]
      | obj ro => simp [compareFuel, compare]
  | hobj lo ih =>
    intro fuel h p r
    cases fuel with
    | zero => simp only [depth] at h; omega
    | succ f =>
      have hlo : depthPairs lo ≤ f := by simp only [depth] at h; omega
      cases r with
      | obj ro =>
        have hkeys := compareKeysFuel_correct ih hlo p ro
        simp only [compareFuel, hkeys, compare, Option.bind_eq_bind, Option.some_bind,
          Option.pure_def]
      | str t => simp [compareFuel, compare]
      | int n => simp [compareFuel, compare]
      | float q2 => simp [compareFuel, compare]
      | bool b2 => simp [compareFuel, compare]
      | null => simp [compareFuel, compare]
      | arr ra => simp [compareFuel, compare]

theorem updateVal_self : ∀ {ro : List (String × Value)} {k : String} {w : Value},
    findVal k ro = some w → updateVal k w ro = ro := by
  intro ro
  induction ro with
  | nil => intro k w h; cases h
  | cons hd tl ih =>
    intro k w h
    obtain ⟨k2, v2⟩ := hd
    by_cases he : k2 = k
    · subst he
      simp [findVal] at h
      simp [updateVal, h]
    · simp only [findVal, if_neg he] at h
      simp [updateVal, he, ih h]

theorem compareIdxMut_frame {la : List Value}
    (ih : ∀ v ∈ la, ∀ (p : String) (r : Value), compareMut p v r = (compare p v r, v, r)) :
    ∀ (p : String) (i : Nat) (ra : List Value),
      compareIdxMut p i la ra = (compareIdx p i la ra, la, ra) := by
  induction la with
  | nil => intro p i ra; cases ra <;> rfl
  | cons x xs ihl =>
    intro p i ra
    cases ra with
    | nil => rfl
    | cons y ys =>
      have h1 := ih x (List.mem_cons_self x xs) (p ++ "[" ++ toString i ++ "]") y
      have h2 := ihl (fun v hv => ih v (List.mem_cons_of_mem x hv)) p (i + 1) ys
      simp only [compareIdxMut, h1, h2, compareIdx]

theorem compareKeysMut_frame {lo : List (String × Value)}
    (ih : ∀ kv ∈ lo, ∀ (p : String) (r : Value),
      compareMut p kv.2 r = (compare p kv.2 r, kv.2, r)) :
    ∀ (p : String) (ro : List (String × Value)),
      compareKeysMut p lo ro = (compareKeys p lo ro, lo, ro) := by
  induction lo with
  | nil => intro p ro; rfl
  | cons hd tl ihl =>
    intro p ro
    obtain ⟨k, v⟩ := hd
    have htl := ihl fun kv hkv => ih kv (List.mem_cons_of_mem (k, v) hkv)
    cases hf : findVal k ro with
    | none =>
      simp only [compareKeysMut, hf, htl, compareKeys, List.singleton_append]
    | some w =>
      have h1 := ih (k, v) (List.mem_cons_self (k, v) tl) (p ++ "." ++ k) w
      simp only [compareKeysMut, hf, h1, updateVal_self hf, htl, compareKeys]

/-- The comparator is read-only: in the state-passing reading, both
inputs come back exactly as they went in, alongside the same records
`compare` emits. -/
theorem compareMut_frame : ∀ (l : Value) (p : String) (r : Value),
    compareMut p l r = (compare p l r, l, r) := by
  intro l
  induction l using Value.myInduction with
  | hstr s => intro p r; cases r <;> simp [compareMut, compare]
  | hint n => intro p r; cases r <;> simp [compareMut, compare]
  | hfloat q => intro p r; cases r <;> simp [compareMut, compare]
  | hbool b => intro p r; cases r <;> simp [compareMut, compare]
  | hnull => intro p r; cases r <;> simp [compareMut, compare]
  | harr la ih =>
    intro p r
    cases r with
    | arr ra =>
      have h1 := compareIdxMut_frame ih p 0 ra
      simp only [compareMut, h1, compare, List.append_assoc]
    | str t => simp [compareMut, compare]
    | int n => simp [compareMut, compare]
    | float q2 => simp [compareMut, compare]
    | bool b2 => simp [compareMut, compare]
    | null => simp [compareMut, compare]
    | obj ro => simp [compareMut, compare]
  | hobj lo ih =>
    intro p r
    cases r with
    | obj ro =>
      have h1 := compareKeysMut_frame ih p ro
      simp only [compareMut, h1, compare, List.append_assoc]
    | str t => simp [compareMut, compare]
    | int n => simp [compareMut, compare]
    | float q2 => simp [compareMut, compare]
    | bool b2 => simp [compareMut, compare]
    | null => simp [compareMut, compare]
    | arr ra => simp [compareMut, compare]

/-- C1 (counterexample): on the two hard-coded sample documents the
comparator does NOT produce exactly two difference records — it emits
seven (one value-mismatch at every node on the chain from the root down
to `fields.type`). -/
theorem c1_sample_documents_counterexample :
    (compare "root" leftDoc rightDoc).length ≠ 2 := by decide

/-- C1 (amended): running `compare` on the two sample documents (as
decoded; the literals in the source are each missing one trailing brace)
produces exactly seven records, all of them value-mismatch records, one
at each node on the chain `root`, `root.components`,
`root.components.schemas`, `...ValidationErrorBodySchema`,
`...properties`, `...properties.fields`, `...properties.fields.type`,
and no missing-key or length-mismatch records anywhere in the tree. -/
theorem c1_sample_documents_diff :
    (compare "root" leftDoc rightDoc).map (fun rec => (Record.isDiff rec, Record.path rec)) =
      [(true, "root"),
       (true, "root.components"),
       (true, "root.components.schemas"),
       (true, "root.components.schemas.ValidationErrorBodySchema"),
       (true, "root.components.schemas.ValidationErrorBodySchema.properties"),
       (true, "root.components.schemas.ValidationErrorBodySchema.properties.fields"),
       (true, "root.components.schemas.ValidationErrorBodySchema.properties.fields.type")] := by
  rfl

/-- C2: reflexivity — `compare p v v` emits no records at all, for every
path `p` and every JSON-representable value `v` (well-formed: no dict
node repeats a key). -/
theorem c2_reflexivity (p : String) (v : Value) (h : wf v = true) :
    compare p v v = [] :=
  compare_nil_of_pyEq v p v (pyEq_refl v h)

theorem c2_reflexivity_witness :
    wf (Value.obj [("a", Value.int 1), ("b", Value.arr [Value.null])]) = true ∧
    compare "p" (Value.obj [("a", Value.int 1), ("b", Value.arr [Value.null])])
      (Value.obj [("a", Value.int 1), ("b", Value.arr [Value.null])]) = [] :=
  ⟨by decide, c2_reflexivity "p" _ (by decide)⟩

/-- C3: when the two values are unequal, `compare` emits the aggregate
value-mismatch record at the parent path, and for mappings it still
recurses into each shared key's child comparison (whose records appear,
in order, inside the output); in particular comparing
`{"x": {"y": 1}}` against `{"x": {"y": 2}}` yields the value-mismatch
record at `path.x` in addition to the one at `path.x.y`. -/
theorem c3_aggregate_and_recurse :
    (∀ (p : String) (l r : Value), pyEq l r = false →
       Record.diff p l r ∈ compare p l r) ∧
    (∀ (p : String) (lo ro : List (String × Value)) (kv : String × Value) (w : Value),
       kv ∈ lo → findVal kv.1 ro = some w →
       (compare (p ++ "." ++ kv.1) kv.2 w).Sublist (compare p (.obj lo) (.obj ro))) ∧
    compare "path" (.obj [("x", .obj [("y", .int 1)])]) (.obj [("x", .obj [("y", .int 2)])]) =
      [Record.diff "path" (.obj [("x", .obj [("y", .int 1)])]) (.obj [("x", .obj [("y", .int 2)])]),
       Record.diff "path.x" (.obj [("y", .int 1)]) (.obj [("y", .int 2)]),
       Record.diff "path.x.y" (.int 1) (.int 2)] := by
  refine ⟨?_, ?_, by rfl⟩
  · intro p l r h
    obtain ⟨t, ht⟩ := compare_cons_of_not_pyEq (p := p) h
    rw [ht]
    exact List.mem_cons_self _ _
  · intro p lo ro kv w hkv hf
    rw [compare_obj_decomp]
    have hblock : keyBlock p ro kv = compare (p ++ "." ++ kv.1) kv.2 w := by
      simp [keyBlock, hf]
    have h1 : (compare (p ++ "." ++ kv.1) kv.2 w).Sublist (lo.flatMap (keyBlock p ro)) :=
      hblock ▸ flatMap_sublist_of_mem (keyBlock p ro) hkv
    exact (h1.trans (List.sublist_append_left _ _)).trans (List.sublist_append_right _ _)

theorem c3_witness :
    ("x", Value.int 1) ∈ [("x", Value.int 1)] ∧
    (compare ("q" ++ "." ++ "x") (Value.int 1) (Value.int 2)).Sublist
      (compare "q" (.obj [("x", Value.int 1)]) (.obj [("x", Value.int 2)])) :=
  ⟨List.mem_cons_self _ _,
   c3_aggregate_and_recurse.2.1 "q" [("x", Value.int 1)] [("x", Value.int 2)]
     ("x", Value.int 1) (Value.int 2) (List.mem_cons_self _ _) rfl⟩

/-- C4: for sequences of different lengths `compare` emits a
length-mismatch record at the sequence's path and still compares the
overlapping prefix pairwise; in particular `[1,2,3]` vs `[1,9]` yields
the length-mismatch record, the value-mismatch at index 1, and no
record for index 2. -/
theorem c4_length_mismatch :
    (∀ (p : String) (la ra : List Value), la.length ≠ ra.length →
       Record.lenMismatch p ∈ compare p (.arr la) (.arr ra)) ∧
    (∀ (p : String) (la ra : List Value) (iv : Nat × Value × Value),
       iv ∈ (la.zip ra).enum →
       (idxBlock p iv).Sublist (compare p (.arr la) (.arr ra))) ∧
    compare "p" (.arr [.int 1, .int 2, .int 3]) (.arr [.int 1, .int 9]) =
      [Record.diff "p" (.arr [.int 1, .int 2, .int 3]) (.arr [.int 1, .int 9]),
       Record.lenMismatch "p",
       Record.diff "p[1]" (.int 2) (.int 9)] := by
  refine ⟨?_, ?_, by rfl⟩
  · intro p la ra h
    rw [compare_arr_decomp]
    simp [h]
  · intro p la ra iv hiv
    rw [compare_arr_decomp]
    have h1 : (idxBlock p iv).Sublist ((la.zip ra).enum.flatMap (idxBlock p)) :=
      flatMap_sublist_of_mem (idxBlock p) hiv
    exact (h1.trans (List.sublist_append_right _ _)).trans (List.sublist_append_right _ _)

theorem c4_witness :
    [Value.null].length ≠ ([] : List Value).length ∧
    Record.lenMismatch "q" ∈ compare "q" (.arr [Value.null]) (.arr []) :=
  ⟨by decide, c4_length_mismatch.1 "q" [Value.null] [] (by decide)⟩

/-- C5: comparing the mapping `{a: 1}` against `{b: 1}` yields exactly
one "Missing key in right" record, at `path.a`, and exactly one
"Missing key in left" record, at `path.b` (preceded only by the
aggregate value-mismatch record of the two unequal dicts). -/
theorem c5_missing_keys :
    compare "path" (.obj [("a", .int 1)]) (.obj [("b", .int 1)]) =
      [Record.diff "path" (.obj [("a", .int 1)]) (.obj [("b", .int 1)]),
       Record.missingRight "path.a",
       Record.missingLeft "path.b"] := by
  rfl

/-- C6: emission order — the node's own value-mismatch record (when
present) comes first; a dict node is followed by the per-key blocks in
the left dict's insertion order and then the "Missing key in left"
records; a list node is followed by the length-mismatch record (when
present) and then the per-index blocks in index order. -/
theorem c6_ordering :
    (∀ (p : String) (l r : Value), pyEq l r = false →
       (compare p l r).head? = some (Record.diff p l r)) ∧
    (∀ (p : String) (lo ro : List (String × Value)),
       compare p (.obj lo) (.obj ro) =
         selfDiff p (.obj lo) (.obj ro) ++
           (lo.flatMap (keyBlock p ro) ++ missingLeftRecs p lo ro)) ∧
    (∀ (p : String) (la ra : List Value),
       compare p (.arr la) (.arr ra) =
         selfDiff p (.arr la) (.arr ra) ++
           ((if la.length = ra.length then [] else [Record.lenMismatch p]) ++
             (la.zip ra).enum.flatMap (idxBlock p))) := by
  refine ⟨?_, compare_obj_decomp, compare_arr_decomp⟩
  intro p l r h
  obtain ⟨t, ht⟩ := compare_cons_of_not_pyEq (p := p) h
  rw [ht]
  rfl

theorem c6_witness :
    pyEq (Value.str "a") (Value.str "b") = false ∧
    (compare "p" (.str "a") (.str "b")).head? =
      some (Record.diff "p" (.str "a") (.str "b")) :=
  ⟨by decide, c6_ordering.1 "p" (.str "a") (.str "b") (by decide)⟩

/-- C7: termination with a depth bound — with fuel at least the depth of
the left tree, the fuel-bounded comparator never runs out and returns
exactly the unbounded result, so `compare`'s recursion depth is bounded
by the depth of the input tree. -/
theorem c7_termination_depth_bound (p : String) (l r : Value) (fuel : Nat)
    (h : depth l ≤ fuel) : compareFuel fuel p l r = some (compare p l r) :=
  compareFuel_correct l fuel h p r

theorem c7_witness :
    depth Value.null ≤ 1 ∧
    compareFuel 1 "p" Value.null Value.null = some (compare "p" Value.null Value.null) :=
  ⟨by decide, c7_termination_depth_bound "p" Value.null Value.null 1 (by decide)⟩

/-- C8: the comparator never mutates its inputs — in the state-passing
reading that threads both values through every recursive call and
reassembles them from the recursive results, both come back exactly as
they went in. -/
theorem c8_no_mutation (p : String) (l r : Value) :
    compareMut p l r = (compare p l r, l, r) :=
  compareMut_frame l p r

/-- C9: `compare p l r` emits no records precisely when `l == r` under
Python equality; and whenever `l != r`, the first record emitted is the
value-mismatch record at `p` itself. -/
theorem c9_empty_iff_equal (p : String) (l r : Value) :
    (compare p l r = [] ↔ pyEq l r = true) ∧
    (pyEq l r = false → (compare p l r).head? = some (Record.diff p l r)) := by
  constructor
  · constructor
    · intro h
      by_contra hne
      have hf : pyEq l r = false := by
        cases hpe : pyEq l r with
        | true => exact absurd hpe hne
        | false => rfl
      obtain ⟨t, ht⟩ := compare_cons_of_not_pyEq (p := p) hf
      rw [ht] at h
      cases h
    · exact fun h => compare_nil_of_pyEq l p r h
  · intro h
    obtain ⟨t, ht⟩ := compare_cons_of_not_pyEq (p := p) h
    rw [ht]
    rfl

theorem c9_witness :
    (compare "p" (Value.int 1) (Value.int 2)).head? =
      some (Record.diff "p" (Value.int 1) (Value.int 2)) :=
  (c9_empty_iff_equal "p" (Value.int 1) (Value.int 2)).2 (by decide)

/-- C10: scalar equality follows Python's numeric coercion — the integer
`1` equals the float `1.0` and the boolean `True` equals the integer
`1`, so `compare` emits no record for these pairs. -/
theorem c10_numeric_coercion :
    pyEq (Value.int 1) (Value.float 1) = true ∧
    pyEq (Value.bool true) (Value.int 1) = true ∧
    compare "p" (Value.int 1) (Value.float 1) = [] ∧
    compare "p" (Value.bool true) (Value.int 1) = [] := by
  exact ⟨by decide, by decide, by rfl, by rfl⟩

end PyDiff
